import Mathlib

/-!
Verification of the prefix-sum fermion-to-qubit transform engine
(`_prefix_sum_transform.py`, `_prefix_sums.py`, `_bravyi_kitaev.py`,
`_parity_transform.py`).

The transform code is embedded as executable Lean functions.  The external
collaborators (the `QubitOperator` algebra from `openfermion.ops` and
`count_qubits` from `openfermion.utils`) are not part of the four source
files and are modelled from the specification.  Complex coefficients are
modelled exactly as dyadic Gaussian rationals (the only coefficients the
transforms produce).  Python `set` values over qubit indices are modelled
as strictly sorted duplicate-free lists of naturals.
-/

/-- Modelled from the spec: complex scalar coefficients ("coefficient is a
complex scalar").  Every coefficient the transforms produce is a dyadic
Gaussian rational, represented exactly and canonically as
`(re + im * i) / 2 ^ den2` with `re`, `im` not both even unless
`den2 = 0`. -/
structure CQ where
  re : ℤ
  im : ℤ
  den2 : ℕ
deriving DecidableEq

/-- Whether an integer is even (kernel-reducible by pattern matching). -/
def evenInt : ℤ → Bool
  | Int.ofNat n => n % 2 = 0
  | Int.negSucc n => (n + 1) % 2 = 0

/-- Exact halving of an even integer. -/
def halfInt : ℤ → ℤ
  | Int.ofNat n => Int.ofNat (n / 2)
  | Int.negSucc n => -(Int.ofNat ((n + 1) / 2))

/-- Reduce `(re + im * i) / 2 ^ den2` to canonical form by cancelling common
factors of two; the fuel is `den2` itself, which bounds the number of
cancellations. -/
def CQ.normLoop : ℤ → ℤ → ℕ → CQ
  | a, b, 0 => ⟨a, b, 0⟩
  | a, b, k + 1 =>
    if evenInt a && evenInt b then CQ.normLoop (halfInt a) (halfInt b) k
    else ⟨a, b, k + 1⟩

instance : Zero CQ := ⟨⟨0, 0, 0⟩⟩
instance : One CQ := ⟨⟨1, 0, 0⟩⟩

instance : Add CQ :=
  ⟨fun a b =>
    let k := max a.den2 b.den2
    let ma : ℤ := Int.ofNat (2 ^ (k - a.den2))
    let mb : ℤ := Int.ofNat (2 ^ (k - b.den2))
    CQ.normLoop (a.re * ma + b.re * mb) (a.im * ma + b.im * mb) k⟩

instance : Neg CQ := ⟨fun a => ⟨-a.re, -a.im, a.den2⟩⟩

instance : Mul CQ :=
  ⟨fun a b =>
    CQ.normLoop (a.re * b.re - a.im * b.im) (a.re * b.im + a.im * b.re)
      (a.den2 + b.den2)⟩

/-- The coefficient `+0.5` of the even (majorana-sum) part. -/
def half : CQ := ⟨1, 0, 1⟩

/-- The coefficient `-0.5j` of the odd (majorana-difference) part. -/
def negHalfI : CQ := ⟨0, -1, 1⟩

/-- The imaginary unit. -/
def imagI : CQ := ⟨0, 1, 0⟩

/-- Minus the imaginary unit. -/
def negImagI : CQ := ⟨0, -1, 0⟩

/-- Single-qubit Pauli letters. -/
inductive Pauli
  | X
  | Y
  | Z
deriving DecidableEq

/-- A fixed enumeration of the Pauli letters, used only to order the
canonical representation of a qubit operator. -/
def Pauli.ord : Pauli → ℕ
  | Pauli.X => 0
  | Pauli.Y => 1
  | Pauli.Z => 2

/-- Modelled from the spec: single-qubit Pauli algebra — "same-qubit letters
compose via XY = iZ, YZ = iX, ZX = iY, and cyclic inverses"; equal letters
square to the identity (`none`). -/
def pauliMul : Pauli → Pauli → CQ × Option Pauli
  | Pauli.X, Pauli.X => (1, none)
  | Pauli.X, Pauli.Y => (imagI, some Pauli.Z)
  | Pauli.X, Pauli.Z => (negImagI, some Pauli.Y)
  | Pauli.Y, Pauli.X => (negImagI, some Pauli.Z)
  | Pauli.Y, Pauli.Y => (1, none)
  | Pauli.Y, Pauli.Z => (imagI, some Pauli.X)
  | Pauli.Z, Pauli.X => (imagI, some Pauli.Y)
  | Pauli.Z, Pauli.Y => (negImagI, some Pauli.X)
  | Pauli.Z, Pauli.Z => (1, none)

/-- A Python `set` of qubit indices, modelled as a strictly sorted
duplicate-free list. -/
abbrev IndexSet := List ℕ

/-- Insert an index into a sorted index set (Python `set.add` / union with a
singleton). -/
def insertSorted (j : ℕ) : IndexSet → IndexSet
  | [] => [j]
  | i :: s =>
    if j < i then j :: i :: s
    else if j = i then i :: s
    else i :: insertSorted j s

/-- Remove an index from an index set. -/
def removeSorted (j : ℕ) : IndexSet → IndexSet
  | [] => []
  | i :: s => if j = i then s else i :: removeSorted j s

/-- Python set difference `s - t`. -/
def listDiff (s t : IndexSet) : IndexSet :=
  t.foldl (fun acc j => removeSorted j acc) s

/-- Python set symmetric difference `s ^ t`. -/
def listSymmDiff (s t : IndexSet) : IndexSet :=
  t.foldl (fun acc j => if acc.contains j then removeSorted j acc else insertSorted j acc) s

/-- A Pauli term: a canonically ordered list of (qubit index, letter) pairs,
at most one letter per qubit. -/
abbrev PauliTerm := List (ℕ × Pauli)

/-- Compose a single Pauli factor into a canonically sorted term, returning
the phase produced by any same-qubit composition (existing letter on the
left, new letter on the right). -/
def insertFactor (j : ℕ) (q : Pauli) : PauliTerm → CQ × PauliTerm
  | [] => (1, [(j, q)])
  | (i, p) :: s =>
    if j < i then (1, (j, q) :: (i, p) :: s)
    else if i < j then
      let r := insertFactor j q s
      (r.1, (i, p) :: r.2)
    else
      match pauliMul p q with
      | (c, none) => (c, s)
      | (c, some pr) => (c, (i, pr) :: s)

/-- Modelled from the spec: canonicalization performed by the `QubitOperator`
constructor — factors are brought into per-qubit sorted form, same-qubit
letters composing left-to-right by the Pauli algebra, the phase folding into
the coefficient. -/
def simplifyFactors (factors : List (ℕ × Pauli)) (coefficient : CQ) : CQ × PauliTerm :=
  factors.foldl
    (fun acc f =>
      let r := insertFactor f.1 f.2 acc.2
      (acc.1 * r.1, r.2))
    (coefficient, [])

/-- Strict lexicographic order on canonical Pauli terms, used to keep the
term-to-coefficient mapping of a qubit operator in a canonical order. -/
def termLtB : PauliTerm → PauliTerm → Bool
  | [], [] => false
  | [], _ :: _ => true
  | _ :: _, [] => false
  | (i, p) :: s, (j, q) :: t =>
    if i < j then true
    else if j < i then false
    else if p.ord < q.ord then true
    else if q.ord < p.ord then false
    else termLtB s t

/-- Modelled from the spec: a qubit operator is "a mapping from Pauli term to
complex coefficient"; represented canonically as a term-sorted association
list with no zero coefficients (absent terms have implicit zero
coefficient). -/
abbrev QubitOperator := List (PauliTerm × CQ)

namespace QubitOperator

/-- Add `c` times the Pauli term `t` into the mapping, summing coefficients
of equal terms and dropping terms whose coefficient becomes zero. -/
def insertTerm (q : QubitOperator) (t : PauliTerm) (c : CQ) : QubitOperator :=
  match q with
  | [] => if c = 0 then [] else [(t, c)]
  | (t', c') :: rest =>
    if termLtB t t' then
      if c = 0 then (t', c') :: rest else (t, c) :: (t', c') :: rest
    else if t = t' then
      let s := c' + c
      if s = 0 then rest else (t, s) :: rest
    else (t', c') :: insertTerm rest t c

/-- Modelled from the spec: construction of a qubit operator "from
(index, letter) sequences plus coefficient", canonicalized by the Pauli
algebra. -/
def ofFactors (factors : List (ℕ × Pauli)) (coefficient : CQ) : QubitOperator :=
  let s := simplifyFactors factors coefficient
  if s.1 = 0 then [] else [(s.2, s.1)]

/-- Modelled from the spec: addition of qubit operators ("coefficients
summed for equal terms"). -/
def add (q1 q2 : QubitOperator) : QubitOperator :=
  q2.foldl (fun acc tc => insertTerm acc tc.1 tc.2) q1

/-- Negation of a qubit operator. -/
def neg (q : QubitOperator) : QubitOperator :=
  q.map (fun tc => (tc.1, -tc.2))

/-- Modelled from the spec: subtraction of qubit operators. -/
def sub (q1 q2 : QubitOperator) : QubitOperator :=
  add q1 (neg q2)

/-- Product of two canonical Pauli terms: the factors of the right term are
composed into the left term one at a time ("different-qubit letters commute
and concatenate", same-qubit letters compose by the Pauli algebra), the
accumulated phase returned alongside the resulting term. -/
def mulTerm (s t : PauliTerm) : CQ × PauliTerm :=
  t.foldl
    (fun acc f =>
      let r := insertFactor f.1 f.2 acc.2
      (acc.1 * r.1, r.2))
    (1, s)

/-- Modelled from the spec: multiplication of qubit operators, distributing
over the term mappings with Pauli-term multiplication. -/
def mul (q1 q2 : QubitOperator) : QubitOperator :=
  q1.foldl
    (fun acc tc1 =>
      q2.foldl
        (fun acc2 tc2 =>
          let r := mulTerm tc1.1 tc2.1
          insertTerm acc2 r.2 (tc1.2 * tc2.2 * r.1))
        acc)
    []

end QubitOperator

/-- Modelled from the spec: `count_qubits` from `openfermion.utils` (not under
the four source files) — "one plus the highest mode index appearing in the
operator" (0 when no mode appears). -/
def count_qubits (operator : List (List (ℕ × ℕ) × CQ)) : ℕ :=
  operator.foldl (fun acc tc => tc.1.foldl (fun a lad => max a (lad.1 + 1)) acc) 0

/-- A fermionic operator: a mapping from fermionic term (ordered ladder
operator sequence, each `(mode, action)` with `action = 1` for raising) to
complex coefficient. -/
abbrev FermionOperator := List (List (ℕ × ℕ) × CQ)

/-- For positive `i`, Python's `i & -i` (lowest set bit, two's complement)
equals `i - (i &&& (i - 1))`. -/
def lowbit (i : ℕ) : ℕ := i - (i &&& (i - 1))

/-- The `while index <= n_qubits` loop of `update_set_bravyi_kitaev`:
`indices.add(index - 1); index += index & -index`.  `fuel` bounds the
iteration count; since `index` strictly increases from at least 1 while at
most `n_qubits`, `n_qubits + 1` iterations always suffice. -/
def updateLoopBK (n_qubits : ℕ) : ℕ → ℕ → IndexSet
  | 0, _ => []
  | fuel + 1, index =>
    if index ≤ n_qubits then
      insertSorted (index - 1) (updateLoopBK n_qubits fuel (index + lowbit index))
    else []

/-- `update_set_bravyi_kitaev(index, n_qubits)`: the loop above started from
the 1-based `index + 1`. -/
def update_set_bravyi_kitaev (index n_qubits : ℕ) : IndexSet :=
  updateLoopBK n_qubits (n_qubits + 1) (index + 1)

/-- The `while index != parent` loop of `occupation_set_bravyi_kitaev`:
`indices.add(index - 1); index &= index - 1`.  `fuel` bounds the iteration
count; `index` strictly decreases, so `index + 1` iterations suffice (the
loop always reaches `parent`, which lies on the strip-lowest-bit chain). -/
def occLoopBK (parent : ℕ) : ℕ → ℕ → IndexSet
  | 0, _ => []
  | fuel + 1, index =>
    if index = parent then []
    else if index = 0 then []
    else insertSorted (index - 1) (occLoopBK parent fuel (index &&& (index - 1)))

/-- `occupation_set_bravyi_kitaev(index)`: with the 1-based `i = index + 1`,
add `i - 1`, set `parent = i & (i - 1)`, decrement to `i - 1` and run the
strip-lowest-bit loop until `parent` is reached. -/
def occupation_set_bravyi_kitaev (index : ℕ) : IndexSet :=
  insertSorted index (occLoopBK ((index + 1) &&& index) (index + 1) index)

/-- The `while index > 0` loop of `parity_set_bravyi_kitaev`:
`indices.add(index - 1); index &= index - 1`.  `fuel` bounds the iteration
count; `index` strictly decreases, so `index + 1` iterations suffice. -/
def parityLoopBK : ℕ → ℕ → IndexSet
  | 0, _ => []
  | fuel + 1, index =>
    if index = 0 then []
    else insertSorted (index - 1) (parityLoopBK fuel (index &&& (index - 1)))

/-- `parity_set_bravyi_kitaev(index)`: the loop above started from the
1-based `index + 1`. -/
def parity_set_bravyi_kitaev (index : ℕ) : IndexSet :=
  parityLoopBK (index + 1) (index + 1)

/-- `update_set_parity(index, n_qubits) = range(index, n_qubits)`. -/
def update_set_parity (index n_qubits : ℕ) : IndexSet :=
  List.range' index (n_qubits - index)

/-- `occupation_set_parity(index)`: `{index}` when `index == 0`, otherwise
`{index, index + 1}`. -/
def occupation_set_parity (index : ℕ) : IndexSet :=
  if index = 0 then [index] else [index, index + 1]

/-- `parity_set_parity(index) = {index}`. -/
def parity_set_parity (index : ℕ) : IndexSet := [index]

/-- `_transform_ladder_operator(ladder_operator, occupation_set, parity_set,
update_set)`: builds the even part `X(update_set) Z(parity_set)` with
coefficient `.5`, the odd part `Y(index) X(update_set - {index})
Z((parity_set ^ occupation_set) - {index})` with coefficient `-.5j`, and
adds them when `action == 1` (raising), subtracts otherwise (lowering). -/
def transform_ladder_operator (ladder_operator : ℕ × ℕ)
    (occupation_set parity_set update_set : ℕ → IndexSet) : QubitOperator :=
  let index := ladder_operator.1
  let action := ladder_operator.2
  let update_set_ := update_set index
  let occupation_set_ := occupation_set index
  let parity_set_ : IndexSet := if index = 0 then [] else parity_set (index - 1)
  let transformed_operator := QubitOperator.ofFactors
    (update_set_.map (fun i => (i, Pauli.X)) ++
      parity_set_.map (fun i => (i, Pauli.Z)))
    half
  let transformed_majorana_difference := QubitOperator.ofFactors
    ((index, Pauli.Y) ::
      ((listDiff update_set_ [index]).map (fun i => (i, Pauli.X)) ++
        (listDiff (listSymmDiff parity_set_ occupation_set_) [index]).map
          (fun i => (i, Pauli.Z))))
    negHalfI
  if action = 1 then
    QubitOperator.add transformed_operator transformed_majorana_difference
  else
    QubitOperator.sub transformed_operator transformed_majorana_difference

/-- `inline_sum(summands, seed)`: fold the summands into the seed with
`+=`. -/
def inline_sum (summands : List QubitOperator) (seed : QubitOperator) : QubitOperator :=
  summands.foldl QubitOperator.add seed

/-- `inline_product(factors, seed)`: fold the factors into the seed with
`*=`. -/
def inline_product (factors : List QubitOperator) (seed : QubitOperator) : QubitOperator :=
  factors.foldl QubitOperator.mul seed

/-- `_transform_operator_term(term, coefficient, ...)`: the inline product of
the transformed ladder operators of the term, in order, seeded with
`QubitOperator((), coefficient)`. -/
def transform_operator_term (term : List (ℕ × ℕ)) (coefficient : CQ)
    (occupation_set parity_set update_set : ℕ → IndexSet) : QubitOperator :=
  inline_product
    (term.map (fun ladder_operator =>
      transform_ladder_operator ladder_operator occupation_set parity_set update_set))
    (QubitOperator.ofFactors [] coefficient)

/-- `prefix_sum_transform(operator, n_qubits, occupation_set, parity_set,
update_set)`: the inline sum of the transformed terms, seeded with the zero
qubit operator. -/
def prefix_sum_transform (operator : FermionOperator) (n_qubits : ℕ)
    (occupation_set parity_set update_set : ℕ → IndexSet) : QubitOperator :=
  inline_sum
    (operator.map (fun tc =>
      transform_operator_term tc.1 tc.2 occupation_set parity_set update_set))
    []

/-- The `ValueError` message raised on an invalid qubit count. -/
def invalidQubitsMsg : String := "Invalid number of qubits specified."

/-- `bravyi_kitaev(operator, n_qubits=None)`: default `n_qubits` to
`count_qubits(operator)`, raise `ValueError` when it is smaller than that
count, otherwise run the engine with the Bravyi-Kitaev index sets (the
update set bound to `n_qubits`). -/
def bravyi_kitaev (operator : FermionOperator) (n_qubits : Option ℕ) :
    Except String QubitOperator :=
  let nq := match n_qubits with
    | none => count_qubits operator
    | some k => k
  if nq < count_qubits operator then Except.error invalidQubitsMsg
  else Except.ok (prefix_sum_transform operator nq
    occupation_set_bravyi_kitaev
    parity_set_bravyi_kitaev
    (fun index => update_set_bravyi_kitaev index nq))

/-- `parity_transform(operator, n_qubits=None)`: same validation, with the
parity index sets. -/
def parity_transform (operator : FermionOperator) (n_qubits : Option ℕ) :
    Except String QubitOperator :=
  let nq := match n_qubits with
    | none => count_qubits operator
    | some k => k
  if nq < count_qubits operator then Except.error invalidQubitsMsg
  else Except.ok (prefix_sum_transform operator nq
    occupation_set_parity
    parity_set_parity
    (fun index => update_set_parity index nq))

/-- `true` exactly when the entry point returned without raising. -/
def exceptOk {ε α : Type} : Except ε α → Bool
  | Except.ok _ => true
  | Except.error _ => false

instance {ε α : Type} [DecidableEq ε] [DecidableEq α] : DecidableEq (Except ε α) := fun a b =>
  match a, b with
  | Except.error e, Except.error f =>
    if h : e = f then Decidable.isTrue (by rw [h]) else Decidable.isFalse (by simp [h])
  | Except.error _, Except.ok _ => Decidable.isFalse (by simp)
  | Except.ok _, Except.error _ => Decidable.isFalse (by simp)
  | Except.ok x, Except.ok y =>
    if h : x = y then Decidable.isTrue (by rw [h]) else Decidable.isFalse (by simp [h])

/-!
The typed embedding above erases one Python-runtime distinction that the
source has: `update_set_parity` returns a `range` object
(`return range(index, n_qubits)`), not a `set`, while
`update_set_bravyi_kitaev` returns a `set`.  Iterating either works, but
the expression `update_set_ - {index}` inside `_transform_ladder_operator`
is only defined when `update_set_` is a set: `range - set` raises
`TypeError`.  The following small model keeps that distinction.
-/

/-- The Python runtime kind of the value an `update_set` callable returns:
a `set` object or a `range` object, each carrying its elements. -/
inductive PyIndexVal
  | pyset (elems : IndexSet)
  | pyrange (elems : IndexSet)
deriving DecidableEq

/-- The elements of the value; iteration (`for i in v`) works for both
kinds. -/
def PyIndexVal.elems : PyIndexVal → IndexSet
  | PyIndexVal.pyset s => s
  | PyIndexVal.pyrange s => s

/-- Python binary `-` as applied to `update_set_ - {index}`: set difference
when the left operand is a `set`, a `TypeError` when it is a `range`. -/
def pySetSub (v : PyIndexVal) (t : IndexSet) : Except String IndexSet :=
  match v with
  | PyIndexVal.pyset s => Except.ok (listDiff s t)
  | PyIndexVal.pyrange _ =>
    Except.error "TypeError: unsupported operand types for -: range and set"

/-- `_transform_ladder_operator` with the runtime kind of the update set
tracked: the even part is built first (iteration only), then
`update_set_ - {index}` is evaluated for the odd part and any `TypeError`
propagates. -/
def transform_ladder_operator_py (ladder_operator : ℕ × ℕ)
    (occupation_set parity_set : ℕ → IndexSet) (update_set : ℕ → PyIndexVal) :
    Except String QubitOperator :=
  let index := ladder_operator.1
  let action := ladder_operator.2
  let update_set_ := update_set index
  let occupation_set_ := occupation_set index
  let parity_set_ : IndexSet := if index = 0 then [] else parity_set (index - 1)
  let transformed_operator := QubitOperator.ofFactors
    (update_set_.elems.map (fun i => (i, Pauli.X)) ++
      parity_set_.map (fun i => (i, Pauli.Z)))
    half
  match pySetSub update_set_ [index] with
  | Except.error e => Except.error e
  | Except.ok update_minus_index =>
    let transformed_majorana_difference := QubitOperator.ofFactors
      ((index, Pauli.Y) ::
        (update_minus_index.map (fun i => (i, Pauli.X)) ++
          (listDiff (listSymmDiff parity_set_ occupation_set_) [index]).map
            (fun i => (i, Pauli.Z))))
      negHalfI
    Except.ok (if action = 1 then
      QubitOperator.add transformed_operator transformed_majorana_difference
    else
      QubitOperator.sub transformed_operator transformed_majorana_difference)

/-- The update-set callable `parity_transform` binds: a `range` object. -/
def update_set_parity_py (n_qubits : ℕ) (index : ℕ) : PyIndexVal :=
  PyIndexVal.pyrange (update_set_parity index n_qubits)

/-- The update-set callable `bravyi_kitaev` binds: a `set` object. -/
def update_set_bravyi_kitaev_py (n_qubits : ℕ) (index : ℕ) : PyIndexVal :=
  PyIndexVal.pyset (update_set_bravyi_kitaev index n_qubits)

/-!
Claim-side definitions, stated from the specification's wording of the
ladder-operator transform (§4.3), to be compared with the embedded source.
-/

/-- The even part as the spec states it: `X(update_set) Z(parity_set)` with
coefficient `+0.5`. -/
def even_part (update_set_ parity_set_ : IndexSet) : QubitOperator :=
  QubitOperator.ofFactors
    (update_set_.map (fun i => (i, Pauli.X)) ++
      parity_set_.map (fun i => (i, Pauli.Z)))
    half

/-- The odd part as the spec states it: `Y(index) X(update_set minus
{index}) Z((parity_set symm-diff occupation_set) minus {index})` with
coefficient `-0.5i`. -/
def odd_part (index : ℕ) (update_set_ parity_set_ occupation_set_ : IndexSet) :
    QubitOperator :=
  QubitOperator.ofFactors
    ((index, Pauli.Y) ::
      ((listDiff update_set_ [index]).map (fun i => (i, Pauli.X)) ++
        (listDiff (listSymmDiff parity_set_ occupation_set_) [index]).map
          (fun i => (i, Pauli.Z))))
    negHalfI

/-!
Theorems settling the claims.
-/

/-- C1: for every ladder operator `(index, action)` and index-set functions,
`_transform_ladder_operator` returns the even part
`X(update_set(index)) Z(parity_set(index-1), empty when index = 0)` with
coefficient `+0.5` plus (when `action = 1`, raising) or minus (lowering)
the odd part `Y(index) X(update_set(index) minus {index})
Z((parity_set symm-diff occupation_set(index)) minus {index})` with
coefficient `-0.5i`. -/
theorem ladder_transform_even_odd_parts (index action : ℕ)
    (occupation_set parity_set update_set : ℕ → IndexSet) :
    transform_ladder_operator (index, action) occupation_set parity_set update_set =
      if action = 1 then
        QubitOperator.add
          (even_part (update_set index)
            (if index = 0 then [] else parity_set (index - 1)))
          (odd_part index (update_set index)
            (if index = 0 then [] else parity_set (index - 1)) (occupation_set index))
      else
        QubitOperator.sub
          (even_part (update_set index)
            (if index = 0 then [] else parity_set (index - 1)))
          (odd_part index (update_set index)
            (if index = 0 then [] else parity_set (index - 1)) (occupation_set index)) :=
  rfl

/-- C2: `bravyi_kitaev` applied to the fermionic operator
`a0dag a0 + a0 a0dag` reduces, under the qubit-operator Pauli algebra, to
the identity qubit operator with coefficient 1. -/
theorem bk_number_anticommutator_is_identity :
    bravyi_kitaev [([(0, 1), (0, 0)], 1), ([(0, 0), (0, 1)], 1)] none =
      Except.ok [([], 1)] := by decide

/-- C3 counterexample: `bravyi_kitaev(a0dag, n_qubits=1)` is NOT
`0.5 I - 0.5i Y0` as the claim states. -/
theorem bk_single_raise_mode0_cex :
    bravyi_kitaev [([(0, 1)], 1)] (some 1) ≠
      Except.ok [([], half), ([(0, Pauli.Y)], negHalfI)] := by decide

/-- C3 amended: `bravyi_kitaev(a0dag, n_qubits=1)` is `0.5 X0 - 0.5i Y0`
(the even part carries `X0` from the update set `{0}`, not the identity). -/
theorem bk_single_raise_mode0 :
    bravyi_kitaev [([(0, 1)], 1)] (some 1) =
      Except.ok [([(0, Pauli.X)], half), ([(0, Pauli.Y)], negHalfI)] := by decide

/-- C4: with an explicit qubit count `k`, both entry points raise the
invalid-qubit-count `ValueError` exactly when `k` is below the minimal
qubit count of the operator (before any transform work, by construction of
the entry points), and `bravyi_kitaev` succeeds for every `k` at or above
it. -/
theorem qubit_count_validation (operator : FermionOperator) (k : ℕ) :
    (k < count_qubits operator →
      bravyi_kitaev operator (some k) = Except.error invalidQubitsMsg ∧
      parity_transform operator (some k) = Except.error invalidQubitsMsg) ∧
    (count_qubits operator ≤ k →
      exceptOk (bravyi_kitaev operator (some k)) = true) := by
  constructor
  · intro h
    constructor
    · simp [bravyi_kitaev, h]
    · simp [parity_transform, h]
  · intro h
    simp [bravyi_kitaev, exceptOk, Nat.not_lt.mpr h]

/-- C4 witness: on the single-mode raising operator (minimal qubit count 1),
`n_qubits = 0` raises and `n_qubits = 1` succeeds. -/
theorem qubit_count_validation_witness :
    bravyi_kitaev [([(0, 1)], 1)] (some 0) = Except.error invalidQubitsMsg ∧
    exceptOk (bravyi_kitaev [([(0, 1)], 1)] (some 1)) = true :=
  ⟨((qubit_count_validation [([(0, 1)], 1)] 0).1 (by decide)).1,
    (qubit_count_validation [([(0, 1)], 1)] 1).2 (by decide)⟩

/-- C5 counterexample: `update_set_parity(0, 1)` contains the index 0 itself
and has size 1, not `n_qubits - index - 1 = 0`; the claimed
"strictly greater than index" description is wrong. -/
theorem update_set_parity_contains_index_cex :
    0 ∈ update_set_parity 0 1 ∧ (update_set_parity 0 1).length ≠ 1 - 0 - 1 := by
  decide

/-- C5 amended: for `index < n_qubits`, `update_set_parity(index, n_qubits)`
is the set of all qubit indices from `index` (inclusive) up to
`n_qubits - 1`; it contains `index` and its size is `n_qubits - index`. -/
theorem update_set_parity_range (index n_qubits : ℕ) (h : index < n_qubits) :
    (∀ j, j ∈ update_set_parity index n_qubits ↔ index ≤ j ∧ j < n_qubits) ∧
    index ∈ update_set_parity index n_qubits ∧
    (update_set_parity index n_qubits).length = n_qubits - index := by
  have hmem : ∀ j, j ∈ update_set_parity index n_qubits ↔ index ≤ j ∧ j < n_qubits := by
    intro j
    simp only [update_set_parity, List.mem_range'_1]
    omega
  exact ⟨hmem, (hmem index).2 ⟨le_refl index, h⟩, by simp [update_set_parity]⟩

/-- C5 witness: the amended description evaluated at `index = 0`,
`n_qubits = 2`. -/
theorem update_set_parity_range_witness :
    0 ∈ update_set_parity 0 2 ∧ (update_set_parity 0 2).length = 2 - 0 :=
  ⟨(update_set_parity_range 0 2 (by decide)).2.1,
    (update_set_parity_range 0 2 (by decide)).2.2⟩

/-- C6: the code violates the claimed range invariant: for the valid mode
index 1 with `n_qubits = 2`, `occupation_set_parity(1) = {1, 2}` contains
the qubit index 2, which is not strictly within `[0, 2)`. -/
theorem occupation_set_parity_out_of_range :
    occupation_set_parity 1 = [1, 2] ∧
    ¬(∀ j ∈ occupation_set_parity 1, j < 2) := by decide

/-- C7: the code violates the claim: with the parity encoding bound, the
ladder-operator transform evaluates `update_set_ - {index}` on the `range`
object returned by `update_set_parity`, a `TypeError`; the same expression
succeeds for the Bravyi-Kitaev binding, whose update set is a `set`.
Hence `parity_transform` raises on every well-formed operator containing a
ladder operator even with a valid qubit count. -/
theorem parity_update_range_typeerror :
    transform_ladder_operator_py (0, 1) occupation_set_parity parity_set_parity
        (update_set_parity_py 1) =
      Except.error "TypeError: unsupported operand types for -: range and set" ∧
    exceptOk (transform_ladder_operator_py (0, 1) occupation_set_bravyi_kitaev
        parity_set_bravyi_kitaev (update_set_bravyi_kitaev_py 1)) = true := by decide

/-- C8: the term transform is the left-to-right fold, by qubit-operator
multiplication, of the individual ladder-operator transforms taken in the
term's original sequence order, seeded with the identity Pauli term scaled
by the coefficient. -/
theorem term_transform_ordered_product (term : List (ℕ × ℕ)) (coefficient : CQ)
    (occupation_set parity_set update_set : ℕ → IndexSet) :
    transform_operator_term term coefficient occupation_set parity_set update_set =
      List.foldl QubitOperator.mul (QubitOperator.ofFactors [] coefficient)
        (term.map (fun ladder_operator =>
          transform_ladder_operator ladder_operator occupation_set parity_set update_set)) :=
  rfl

/-- C9: on the operator whose only term is the identity (empty ladder
sequence) with coefficient `c`, both transforms return `c` times the
identity Pauli term, and on the operator with no terms both return the
zero qubit operator. -/
theorem identity_and_empty_operator (c : CQ) :
    bravyi_kitaev [([], c)] none = Except.ok (QubitOperator.ofFactors [] c) ∧
    parity_transform [([], c)] none = Except.ok (QubitOperator.ofFactors [] c) ∧
    bravyi_kitaev [] none = Except.ok [] ∧
    parity_transform [] none = Except.ok [] := by
  refine ⟨?_, ?_, rfl, rfl⟩ <;>
  · simp only [bravyi_kitaev, parity_transform, prefix_sum_transform,
      transform_operator_term, inline_sum, inline_product, QubitOperator.add,
      QubitOperator.ofFactors, simplifyFactors, count_qubits, List.map, List.foldl]
    by_cases hc : c = 0 <;> simp [hc, QubitOperator.insertTerm]

/-- C10: the Bravyi-Kitaev output depends on the supplied qubit count:
`update_set_bravyi_kitaev(0, 1) = {0}` while
`update_set_bravyi_kitaev(0, 2) = {0, 1}`, and `bravyi_kitaev(a0dag)`
returns different Pauli strings at `n_qubits = 1` and `n_qubits = 2`. -/
theorem bk_depends_on_n_qubits :
    update_set_bravyi_kitaev 0 1 = [0] ∧
    update_set_bravyi_kitaev 0 2 = [0, 1] ∧
    bravyi_kitaev [([(0, 1)], 1)] (some 2) =
      Except.ok [([(0, Pauli.X), (1, Pauli.X)], half),
        ([(0, Pauli.Y), (1, Pauli.X)], negHalfI)] ∧
    bravyi_kitaev [([(0, 1)], 1)] (some 1) ≠
      bravyi_kitaev [([(0, 1)], 1)] (some 2) := by decide
